import Mathlib

/-!
# Verification of the `jira-rel-scope` action's table logic

A shallow embedding of `src/.github/actions/jira-rel-scope/main.py`:
the ADF (Atlassian Document Format) JSON tree, text extraction, table
decoding/encoding, the component upsert logic inlined in `main`, and the
tree splice `replace_or_append_first_table`.
-/

namespace JiraRelScope

/- JSON values, as Python's `json` module produces them: `None`, booleans,
numbers (only integers occur in ADF payloads relevant here), strings,
lists and dicts.  Dicts are modelled as ordered association lists, matching
Python's insertion-ordered dicts (parsed JSON objects have unique keys). -/
mutual

/-- A Python/JSON value. -/
inductive J where
  | null : J
  | bool (b : Bool) : J
  | num (n : Int) : J
  | str (s : String) : J
  | arr (items : JList) : J
  | obj (fields : JObj) : J
deriving DecidableEq

inductive JList where
  | nil : JList
  | cons (head : J) (tail : JList) : JList
deriving DecidableEq

inductive JObj where
  | nil : JObj
  | cons (key : String) (value : J) (tail : JObj) : JObj
deriving DecidableEq

end

/-- `d.get(k)` / `d[k]` on a Python dict: the value bound to `k`. -/
def JObj.lookup (k : String) : JObj → Option J
  | .nil => none
  | .cons k' v rest => if k' = k then some v else JObj.lookup k rest

/-- Python's `str.strip()` with no argument: drop leading and trailing
whitespace.  (Python strips all Unicode whitespace; the strings this
program strips only ever carry ASCII whitespace, which is what
`Char.isWhitespace` covers.) -/
def pyStrip (s : String) : String :=
  ⟨List.reverse (List.dropWhile Char.isWhitespace
    (List.reverse (List.dropWhile Char.isWhitespace s.data)))⟩

/-- Python's `str.lower()`.  (Python lowercases Unicode; the compared
strings here are ASCII, which is what `Char.toLower` covers.) -/
def pyLower (s : String) : String :=
  ⟨s.data.map Char.toLower⟩

/-- Python's `str.split(sep)` for a one-character separator, as in
`upsert_raw.split(",")` (main.py:728): `"" → [""]`, separators at the
ends produce empty fields. -/
def splitCharList (sep : Char) : List Char → List (List Char)
  | [] => [[]]
  | c :: rest =>
    match splitCharList sep rest with
    | [] => [[]]
    | grp :: grps => if c = sep then [] :: grp :: grps else (c :: grp) :: grps

def pySplit (s : String) (sep : Char) : List String :=
  (splitCharList sep s.data).map (fun l => ⟨l⟩)

/-- The string `text` field of a node, `""` when absent or not a string:
`if "text" in node and isinstance(node["text"], str)` (main.py:102-104). -/
def textFallback (fields : JObj) : String :=
  match fields.lookup "text" with
  | some (.str s) => s
  | _ => ""

mutual

/-- The string `extract_text` (main.py:93-109) produces on every input
where the program returns without raising.  A non-dict returns `""`; a
dict of `type == "text"` returns its `text` field; any other dict returns
its string `text` field (if any) followed by the concatenated extraction
of its `content` children (if `content` is a list).  One case is
collapsed here: main.py:99 is `return node.get("text", "")`, unchecked,
so a malformed text-run node whose `text` is a non-string returns that
raw value and a parent's `txt += extract_text(ch)` (main.py:108) then
raises `TypeError`; this string-level function maps that field to `""`.
The faithful value-or-exception semantics is `extract_text_py` below, and
`extract_text_py_str` proves the two agree on every input on which the
program returns a string (in particular on everything the table decoder
successfully processes). -/
def extract_text : J → String
  | .obj fields =>
    if fields.lookup "type" = some (.str "text") then
      textFallback fields
    else
      textFallback fields ++ extractContentChildren fields
  | _ => ""

/-- `if "content" in node and isinstance(node["content"], list): for ch in
node["content"]: txt += extract_text(ch)` (main.py:105-108), walking the
field list to the `content` binding (parsed JSON dicts have unique keys,
so this is the dict's one `content` value; see
`extractContentChildren_lookup` below). -/
def extractContentChildren : JObj → String
  | .nil => ""
  | .cons k v rest =>
    if k = "content" then
      match v with
      | .arr children => extractTextList children
      | _ => ""
    else extractContentChildren rest

/-- The `txt += extract_text(ch)` accumulation over the children. -/
def extractTextList : JList → String
  | .nil => ""
  | .cons c rest => extract_text c ++ extractTextList rest

end

mutual

/-- `extract_text` (main.py:93-109) with its exception behaviour kept:
the result is the returned Python value (`some v`), or `none` when a
`TypeError` escapes.  A dict of `type == "text"` returns
`node.get("text", "")` raw (main.py:98-99) — possibly a non-string.  Any
other dict concatenates its string `text` field with the extraction of
its `content` children; `txt += extract_text(ch)` (main.py:108) raises
when a child's extraction is not a string, and a child's exception
propagates. -/
def extract_text_py : J → Option J
  | .obj fields =>
    if fields.lookup "type" = some (.str "text") then
      some ((fields.lookup "text").getD (.str ""))
    else
      (extractContentChildrenPy fields).map
        (fun s => .str (textFallback fields ++ s))
  | _ => some (.str "")

/-- The `content` scan of main.py:105-108 at the exception level. -/
def extractContentChildrenPy : JObj → Option String
  | .nil => some ""
  | .cons k v rest =>
    if k = "content" then
      match v with
      | .arr children => extractTextListPy children
      | _ => some ""
    else extractContentChildrenPy rest

/-- The `txt += extract_text(ch)` loop: `none` as soon as a child raises
or returns a non-string (the string concatenation then raises). -/
def extractTextListPy : JList → Option String
  | .nil => some ""
  | .cons c rest =>
    match extract_text_py c with
    | some (.str s) => (extractTextListPy rest).map (fun t => s ++ t)
    | _ => none

end

mutual

/-- Every text-run node reachable through `content` lists carries a
string `text` field or none at all: the inputs on which the extraction
of main.py:93-109 cannot raise. -/
def textOk : J → Bool
  | .obj fields =>
    if fields.lookup "type" = some (.str "text") then
      match fields.lookup "text" with
      | some (.str _) => true
      | none => true
      | some _ => false
    else textOkContent fields
  | _ => true

def textOkContent : JObj → Bool
  | .nil => true
  | .cons k v rest =>
    if k = "content" then
      match v with
      | .arr children => textOkList children
      | _ => true
    else textOkContent rest

def textOkList : JList → Bool
  | .nil => true
  | .cons c rest => textOk c && textOkList rest

end

/-- `node.get("content", []) or []`, the access pattern used for the cell
list of a row, the row list of a table and the content of a cell
(main.py:63, 67, 75).  An absent or Python-falsy `content` gives `[]`.
A *truthy non-list* `content` value would make the Python iteration raise;
theorems quantifying over raw trees carry well-formedness hypotheses that
exclude that case (and the non-dict case, where `.get` itself raises). -/
def contentList (n : J) : JList :=
  match n with
  | .obj fields =>
    match fields.lookup "content" with
    | some (.arr l) => l
    | _ => .nil
  | _ => .nil

/-- Text of one cell (main.py:73-77): `extract_text` joined over the
cell's content children, then stripped. -/
def cellText (cell : J) : String :=
  pyStrip (extractTextList (contentList cell))

/-- The `row_vals` list of one row: `cellText` over its cells in order. -/
def cellTexts : JList → List String
  | .nil => []
  | .cons c rest => cellText c :: cellTexts rest

/-- `c.get("type") == "tableHeader"` (main.py:70).  Python raises on a
non-dict cell; here a non-dict is simply not header-typed. -/
def isHeaderCell (c : J) : Bool :=
  match c with
  | .obj fields => fields.lookup "type" == some (.str "tableHeader")
  | _ => false

/-- `all(c.get("type") == "tableHeader" for c in cells)`. -/
def allHeaderCells : JList → Bool
  | .nil => true
  | .cons c rest => isHeaderCell c && allHeaderCells rest

def JList.isEmpty : JList → Bool
  | .nil => true
  | .cons _ _ => false

/-- `is_header_row` (main.py:69-71): every cell header-typed AND at least
one cell. -/
def isHeaderRow (row : J) : Bool :=
  allHeaderCells (contentList row) && !(contentList row).isEmpty

/-- The width-normalization tail of `adf_table_to_rows` (main.py:82-89):
`width = max(len(headers), max((len(r) for r in data), default=0))`; pad
headers (or synthesize `Col1..ColW` when no header row was found) and pad
every data row to `width` with empty strings. -/
def normalizeTable (headers : List String) (data : List (List String)) :
    List String × List (List String) :=
  let width := max headers.length ((data.map List.length).foldr max 0)
  let headers' :=
    if headers ≠ [] then headers ++ List.replicate (width - headers.length) ""
    else (List.range width).map (fun i => "Col" ++ toString (i + 1))
  (headers', data.map (fun r => r ++ List.replicate (width - r.length) ""))

/-- Decoding of the data rows: each remaining row contributes
`row_vals` (main.py:66-81, the `else` branch of the idx-0 test). -/
def decodeDataRows : JList → List (List String)
  | .nil => []
  | .cons row rest => cellTexts (contentList row) :: decodeDataRows rest

/-- `adf_table_to_rows` (main.py:58-90).  The Python loop assigns
`headers` only at index 0 and only when that row is a header row; every
other row is appended to `data`.  The final pair is width-normalized. -/
def adf_table_to_rows (table_node : J) : List String × List (List String) :=
  match contentList table_node with
  | .nil => normalizeTable [] []
  | .cons row0 rest =>
    if isHeaderRow row0 then
      normalizeTable (cellTexts (contentList row0)) (decodeDataRows rest)
    else
      normalizeTable [] (cellTexts (contentList row0) :: decodeDataRows rest)

/-- `make_paragraph` (main.py:820-821):
`{"type": "paragraph", "content": [{"type": "text", "text": text}]}`.
(`make_text_node` of main.py:817-818 is defined but never called.) -/
def make_paragraph (text : String) : J :=
  .obj (.cons "type" (.str "paragraph")
    (.cons "content"
      (.arr (.cons (.obj (.cons "type" (.str "text")
        (.cons "text" (.str text) .nil))) .nil)) .nil))

/-- `make_table_header_cell` (main.py:823-825). -/
def make_table_header_cell (text : String) : J :=
  .obj (.cons "type" (.str "tableHeader")
    (.cons "content" (.arr (.cons (make_paragraph text) .nil)) .nil))

/-- `make_table_cell` (main.py:827-829). -/
def make_table_cell (text : String) : J :=
  .obj (.cons "type" (.str "tableCell")
    (.cons "content" (.arr (.cons (make_paragraph text) .nil)) .nil))

def JList.ofList : List J → JList
  | [] => .nil
  | x :: xs => .cons x (JList.ofList xs)

/-- `build_adf_table` (main.py:831-841): a `table` node whose first row is
a `tableRow` of `tableHeader` cells and whose remaining rows are
`tableRow`s of `tableCell`s. -/
def build_adf_table (headers_list : List String) (rows_list : List (List String)) : J :=
  let header_row : J := .obj (.cons "type" (.str "tableRow")
    (.cons "content" (.arr (JList.ofList (headers_list.map make_table_header_cell))) .nil))
  let data_rows : List J := rows_list.map (fun r =>
    .obj (.cons "type" (.str "tableRow")
      (.cons "content" (.arr (JList.ofList (r.map make_table_cell))) .nil)))
  .obj (.cons "type" (.str "table")
    (.cons "content" (.arr (JList.ofList (header_row :: data_rows))) .nil))

/-- A non-empty all-digit character run, read as a number. -/
def parseDigits (l : List Char) : Option Nat :=
  if l ≠ [] ∧ l.all Char.isDigit then
    some (l.foldl (fun acc c => acc * 10 + (c.toNat - 48)) 0)
  else none

/-- Python's `int(s)` on a string, as used on Order cells (main.py:764):
surrounding whitespace stripped, one optional sign, at least one decimal
digit; anything else raises (modelled as `none`).  (Python additionally
accepts underscore digit grouping and non-ASCII decimal digits; those
never arise in this table's Order column and are not modelled.) -/
def pyInt? (s : String) : Option Int :=
  match (pyStrip s).data with
  | '-' :: rest => (parseDigits rest).map (fun n => -(n : Int))
  | '+' :: rest => (parseDigits rest).map (fun n => (n : Int))
  | l => (parseDigits l).map (fun n => (n : Int))

/-- Header normalization `h.strip().lower()` (main.py:715-716). -/
def normHeader (s : String) : String := pyLower (pyStrip s)

/-- `expected_headers` (main.py:700-706). -/
def expected_headers : List String :=
  ["Order", "Component", "Branch Name", "Change Request", "External Dependency"]

/-- The row test of the conflict scan (main.py:743-747):
`len(r) > comp_idx and (r[comp_idx] or "").strip().lower() == comp.strip().lower()`
with `comp_idx = 1`. -/
def rowMatchesComp (comp : String) (r : List String) : Bool :=
  decide (1 < r.length) && (pyLower (pyStrip (r.getD 1 "")) == pyLower (pyStrip comp))

/-- The Order cells fed to `max` (main.py:764): `r[0]` for every row `r`
that is non-empty (`if r`) and whose first cell is not `""`. -/
def orderCellStrings (rows : List (List String)) : List String :=
  rows.filterMap (fun r =>
    match r.head? with
    | some c => if c == "" then none else some c
    | none => none)

/-- `max_order` (main.py:762-767): if every collected Order cell parses as
an int, their maximum (`-1` when there are none, Python's
`default=-1`); if any `int(...)` raises, `len(rows) - 1`. -/
def maxOrderOf (rows : List (List String)) : Int :=
  match (orderCellStrings rows).mapM pyInt? with
  | some [] => -1
  | some (v :: vs) => vs.foldl max v
  | none => (rows.length : Int) - 1

/-- `new_order` (main.py:768): `max_order + 1 if max_order >= 0 else 0`. -/
def nextOrder (rows : List (List String)) : Int :=
  if maxOrderOf rows ≥ 0 then maxOrderOf rows + 1 else 0

/-- Outcome of the upsert path of `main`.  `argError` is the argument
validation `die` (main.py:311-314); `schemaMismatch` the header-check
`die` carrying the expected schema (main.py:717-725); `conflict` the
duplicate-component `die` carrying the conflicting row (main.py:748-759);
`added` the append path (main.py:760-770).  In the fatal cases the process
exits with the in-memory `rows` list in the state recorded in `finalRows`
(never mutated before the exit), so `finalRows` witnesses what the table
looked like when the operation ended. -/
inductive UpsertOutcome where
  | argError : UpsertOutcome
  | schemaMismatch (expected : List String) (finalRows : List (List String)) : UpsertOutcome
  | conflict (old_row : List String) (finalRows : List (List String)) : UpsertOutcome
  | added (new_row : List String) (finalRows : List (List String)) : UpsertOutcome
deriving DecidableEq

/-- The table-level upsert logic of `main` (main.py:699-770), as a function
of the parsed field values `comp / branch / change_req / ext_dep`
(main.py:734-737) and the decoded table: synthesize the canonical table
when none exists (main.py:709-712), validate the schema (main.py:714-725),
scan for a duplicate component (main.py:739-759), else append a new row
with the next Order (main.py:760-770).  (The `len(parts) < 1` check of
main.py:729-732 sits between the schema check and the scan in the source
but is unreachable: `str.split` always returns at least one element.) -/
def upsertEngine (comp branch change_req ext_dep : String) (has_table : Bool)
    (headers0 : List String) (rows0 : List (List String)) : UpsertOutcome :=
  let headers := if has_table then headers0 else expected_headers
  let rows := if has_table then rows0 else []
  if headers.map normHeader ≠ expected_headers.map normHeader then
    .schemaMismatch expected_headers rows
  else
    match rows.find? (rowMatchesComp comp) with
    | some r => .conflict r rows
    | none =>
      let new_row := [toString (nextOrder rows), comp, branch, change_req, ext_dep]
      .added new_row (rows ++ [new_row])

/-- The upsert command end to end: the argument validation of
main.py:310-314 (`argparse` yields the empty string only for an explicitly
empty flag; an absent flag is `None`, equally falsy, so `""` models both),
then the CSV round-trip of main.py:692-697 and 727-737
(`upsert_raw = ",".join([comp, branch, "", ""]).strip()` and
`parts = [p.strip() for p in upsert_raw.split(",")]`), then the
table-level logic. -/
def upsertCli (jira_key branch_name component : String) (has_table : Bool)
    (headers : List String) (rows : List (List String)) : UpsertOutcome :=
  if jira_key = "" ∨ branch_name = "" ∨ component = "" then .argError
  else
    let comp0 := pyStrip component
    let branch0 := pyStrip branch_name
    let upsert_raw := pyStrip (comp0 ++ "," ++ branch0 ++ ",,")
    let parts := (pySplit upsert_raw ',').map pyStrip
    upsertEngine (parts.getD 0 "") (parts.getD 1 "") (parts.getD 2 "")
      (parts.getD 3 "") has_table headers rows

def JObj.isEmpty : JObj → Bool
  | .nil => true
  | .cons _ _ _ => false

/-- Python truthiness of a JSON value (`if not adf_desc`, main.py:848). -/
def pyTruthy : J → Bool
  | .null => false
  | .bool b => b
  | .num n => n != 0
  | .str s => !s.isEmpty
  | .arr l => !l.isEmpty
  | .obj fs => !fs.isEmpty

/-- `isinstance(node, dict) and node.get("type") == "table"`. -/
def isTableDict : J → Bool
  | .obj fields => fields.lookup "type" == some (.str "table")
  | _ => false

def JList.append : JList → JList → JList
  | .nil, l => l
  | .cons x xs, l => .cons x (JList.append xs l)

mutual

/-- The `walk` closure of `replace_or_append_first_table`
(main.py:853-875), with the nonlocal `replaced` flag threaded through as
state.  A dict that is a `table` (while not yet replaced) is cleared and
overwritten with the new table in place (main.py:856-861), so its position
afterwards holds `nt`; otherwise every value of the dict is walked in
order.  In a list, an element that is a table dict is overwritten at its
index and the traversal of that list stops (main.py:865-873, the `return`);
enclosing containers keep iterating their remaining members with
`replaced` now true, which can no longer change anything. -/
def walkNode (nt : J) (replaced : Bool) : J → J × Bool
  | .obj fields =>
    if !replaced && (fields.lookup "type" == some (.str "table")) then
      (nt, true)
    else
      let p := walkObj nt replaced fields
      (.obj p.1, p.2)
  | .arr items =>
    let p := walkArr nt replaced items
    (.arr p.1, p.2)
  | n => (n, replaced)

/-- `for k, v in node.items(): walk(v)` (main.py:862-863). -/
def walkObj (nt : J) (replaced : Bool) : JObj → JObj × Bool
  | .nil => (.nil, replaced)
  | .cons k v rest =>
    let p := walkNode nt replaced v
    let q := walkObj nt p.2 rest
    (.cons k p.1 q.1, q.2)

/-- `for i, item in enumerate(node): ...` (main.py:864-875). -/
def walkArr (nt : J) (replaced : Bool) : JList → JList × Bool
  | .nil => (.nil, replaced)
  | .cons item rest =>
    if !replaced && isTableDict item then
      (.cons nt rest, true)
    else
      let p := walkNode nt replaced item
      let q := walkArr nt p.2 rest
      (.cons p.1 q.1, q.2)

end

/-- `{"type": "doc", "version": 1, "content": [...]}` (main.py:849, 891-895). -/
def mkDoc (content : JList) : J :=
  .obj (.cons "type" (.str "doc")
    (.cons "version" (.num 1) (.cons "content" (.arr content) .nil)))

/-- `desc_copy["content"].append(new_table)` (main.py:887): the first
`content` binding, known to hold a list, gets the new table appended. -/
def appendToContent (nt : J) : JObj → JObj
  | .nil => .nil
  | .cons k v rest =>
    if k = "content" then
      match v with
      | .arr l => .cons k (.arr (l.append (.cons nt .nil))) rest
      | _ => .cons k v rest
    else .cons k v (appendToContent nt rest)

/-- `replace_or_append_first_table` (main.py:846-897).  A falsy or
non-dict description is replaced outright by a fresh doc holding only the
new table; otherwise the tree is walked and the first table replaced in
place; failing that, the new table is appended to a top-level `content`
list when one exists; failing that, a fresh doc wraps the (unchanged)
original next to the new table.  The function always reports `True`
(main.py:860, 873, 888, 896). -/
def replace_or_append_first_table (adf_desc : J) (new_table : J) : J × Bool :=
  if !(pyTruthy adf_desc) || !(adf_desc matches .obj _) then
    (mkDoc (.cons new_table .nil), true)
  else
    let p := walkNode new_table false adf_desc
    if p.2 then (p.1, true)
    else
      match p.1 with
      | .obj fields =>
        match fields.lookup "content" with
        | some (.arr _) => (.obj (appendToContent new_table fields), true)
        | _ => (mkDoc (.cons p.1 (.cons new_table .nil)), true)
      | _ => (mkDoc (.cons p.1 (.cons new_table .nil)), true)

mutual

/-- Is there a table dict anywhere in this value (reachable through dict
values and list items, the positions `walk` visits)? -/
def containsTable : J → Bool
  | .obj fields => (fields.lookup "type" == some (.str "table")) || containsTableObj fields
  | .arr items => containsTableArr items
  | _ => false

def containsTableObj : JObj → Bool
  | .nil => false
  | .cons _ v rest => containsTable v || containsTableObj rest

def containsTableArr : JList → Bool
  | .nil => false
  | .cons item rest => containsTable item || containsTableArr rest

end

mutual

/-- The splice behaviour the spec prescribes, stated as its own function:
"traverse pre-order, depth-first, looking for the first table node; on
finding it, replace it in place within its parent container (same
position, same siblings before/after) and stop"; `none` when the value
holds no table.  By construction exactly one position changes and
everything outside it is kept. -/
def replaceFirstTableSpec (nt : J) : J → Option J
  | .obj fields =>
    if fields.lookup "type" == some (.str "table") then some nt
    else (replaceFirstTableSpecObj nt fields).map .obj
  | .arr items => (replaceFirstTableSpecArr nt items).map .arr
  | _ => none

def replaceFirstTableSpecObj (nt : J) : JObj → Option JObj
  | .nil => none
  | .cons k v rest =>
    match replaceFirstTableSpec nt v with
    | some v' => some (.cons k v' rest)
    | none => (replaceFirstTableSpecObj nt rest).map (.cons k v)

def replaceFirstTableSpecArr (nt : J) : JList → Option JList
  | .nil => none
  | .cons item rest =>
    match replaceFirstTableSpec nt item with
    | some item' => some (.cons item' rest)
    | none => (replaceFirstTableSpecArr nt rest).map (.cons item)

end

def JList.length : JList → Nat
  | .nil => 0
  | .cons _ rest => 1 + JList.length rest

def JList.all (p : J → Bool) : JList → Bool
  | .nil => true
  | .cons x rest => p x && JList.all p rest

/-- The shapes of `content` on which `node.get("content", []) or []`
neither raises nor feeds a non-list into the following iteration: the
node is a dict whose `content` is absent, a list, or Python-falsy. -/
def contentOkay (n : J) : Bool :=
  match n with
  | .obj fields =>
    match fields.lookup "content" with
    | some (.arr _) => true
    | some v => !pyTruthy v
    | none => true
  | _ => false

/-- A row the Python decoder processes without raising: a dict with a
usable `content`, all of whose cells are dicts with usable `content`
(cells are hit by `c.get("type")` and `cell.get("content", [])`). -/
def wfRow (row : J) : Bool :=
  contentOkay row && (contentList row).all contentOkay

/-- A table node the Python decoder processes without raising. -/
def wfTable (t : J) : Bool :=
  contentOkay t && (contentList t).all wfRow

/-- The next-Order rule exactly as the spec states it: "max(numeric value
of every non-empty Order cell) + 1; if no numeric Order values exist, fall
back to `row_count - 1`, clamped to be non-negative, defaulting to 0 for
an empty table".  Stated as its own function to compare against the
code's `nextOrder`. -/
def claimedNextOrder (rows : List (List String)) : Int :=
  match (orderCellStrings rows).filterMap pyInt? with
  | [] => max ((rows.length : Int) - 1) 0
  | v :: vs => vs.foldl max v + 1

/-- A minimal table node, `{"type": "table"}`. -/
def tableBare : J := .obj (.cons "type" (.str "table") .nil)

/-- An empty table node to splice in, `{"type": "table", "content": []}`. -/
def tableFresh : J :=
  .obj (.cons "type" (.str "table") (.cons "content" (.arr .nil) .nil))

/-- A table row with an empty cell list. -/
def rowNoCells : J :=
  .obj (.cons "type" (.str "tableRow") (.cons "content" (.arr .nil) .nil))

/-- A table whose single row has no cells at all. -/
def tableEmptyRow : J :=
  .obj (.cons "type" (.str "table")
    (.cons "content" (.arr (.cons rowNoCells .nil)) .nil))

/-- A header cell with empty content. -/
def cellHdrEmpty : J :=
  .obj (.cons "type" (.str "tableHeader") (.cons "content" (.arr .nil) .nil))

/-- A table whose row 0 is a genuine (single-cell) header row. -/
def tableHdr : J :=
  .obj (.cons "type" (.str "table")
    (.cons "content" (.arr (.cons (J.obj (.cons "type" (.str "tableRow")
      (.cons "content" (.arr (.cons cellHdrEmpty .nil)) .nil))) .nil)) .nil))

/-- A text-run node carrying `"y"`. -/
def textNodeY : J := .obj (.cons "type" (.str "text") (.cons "text" (.str "y") .nil))

/-- Fields of a non-text node that carries both a `text` string and
`content` children. -/
def paraXYFields : JObj :=
  .cons "type" (.str "paragraph") (.cons "text" (.str "x")
    (.cons "content" (.arr (.cons textNodeY .nil)) .nil))

/-- A malformed text-run node whose `text` field is the number 5. -/
def textNodeNum : J := .obj (.cons "type" (.str "text") (.cons "text" (.num 5) .nil))

/-- A paragraph whose only child is the malformed text-run node: Python
raises `TypeError` at `txt += extract_text(ch)` on this input. -/
def paraBadChild : J :=
  .obj (.cons "type" (.str "paragraph")
    (.cons "content" (.arr (.cons textNodeNum .nil)) .nil))

/-- A panel wrapping the bare table (nesting the table at depth 3 from the
document root). -/
def panelWithTable : J :=
  .obj (.cons "type" (.str "panel") (.cons "content" (.arr (.cons tableBare .nil)) .nil))

def panelWithFresh : J :=
  .obj (.cons "type" (.str "panel") (.cons "content" (.arr (.cons tableFresh .nil)) .nil))

/-- A document with paragraphs around a panel that holds a table. -/
def docDeepFields : JObj :=
  .cons "type" (.str "doc") (.cons "version" (.num 1)
    (.cons "content" (.arr (.cons (make_paragraph "intro")
      (.cons panelWithTable (.cons (make_paragraph "outro") .nil)))) .nil))

/-- `docDeepFields` with only the nested table swapped for `tableFresh`. -/
def docDeepReplaced : J :=
  .obj (.cons "type" (.str "doc") (.cons "version" (.num 1)
    (.cons "content" (.arr (.cons (make_paragraph "intro")
      (.cons panelWithFresh (.cons (make_paragraph "outro") .nil)))) .nil)))

/-- A document with a content list but no table anywhere. -/
def docNoTableFields : JObj :=
  .cons "type" (.str "doc")
    (.cons "content" (.arr (.cons (make_paragraph "intro") .nil)) .nil)

theorem foldr_max_le {n : Nat} :
    ∀ {lens : List Nat}, (∀ x ∈ lens, x ≤ n) → lens.foldr max 0 ≤ n := by
  intro lens
  induction lens with
  | nil => intro; simp
  | cons x xs ih =>
    intro h
    simp only [List.foldr_cons]
    exact max_le (h x (by simp)) (ih fun y hy => h y (by simp [hy]))

theorem le_foldr_max {x : Nat} :
    ∀ {lens : List Nat}, x ∈ lens → x ≤ lens.foldr max 0 := by
  intro lens
  induction lens with
  | nil => intro h; simp at h
  | cons y ys ih =>
    intro h
    simp only [List.foldr_cons]
    rcases List.mem_cons.mp h with rfl | h
    · exact le_max_left _ _
    · exact le_trans (ih h) (le_max_right _ _)

/-- Width normalization keeps an already-uniform table fixed: when every
row already has the headers' width, nothing is padded and no headers are
synthesized (an empty headers list then forces width 0). -/
theorem normalizeTable_of_uniform (headers : List String)
    (data : List (List String)) (hu : ∀ r ∈ data, r.length = headers.length) :
    normalizeTable headers data = (headers, data) := by
  have hle : (data.map List.length).foldr max 0 ≤ headers.length := by
    apply foldr_max_le
    intro x hx
    obtain ⟨r, hr, rfl⟩ := List.mem_map.mp hx
    exact (hu r hr).le
  have hw : max headers.length ((data.map List.length).foldr max 0) = headers.length :=
    max_eq_left hle
  simp only [normalizeTable, hw, Prod.mk.injEq]
  refine ⟨?_, ?_⟩
  · by_cases hh : headers = []
    · subst hh; simp
    · simp [hh]
  · conv_rhs => rw [show data = data.map id from (List.map_id data).symm]
    apply List.map_congr_left
    intro r hr
    simp [hu r hr]

/-- Width normalization makes every row as long as the headers list. -/
theorem normalizeTable_uniform_out (headers : List String)
    (data : List (List String)) :
    ∀ r ∈ (normalizeTable headers data).2,
      r.length = (normalizeTable headers data).1.length := by
  intro r hr
  simp only [normalizeTable] at hr ⊢
  obtain ⟨r0, hr0, rfl⟩ := List.mem_map.mp hr
  have hr0le : r0.length ≤ max headers.length ((data.map List.length).foldr max 0) :=
    le_trans (le_foldr_max (List.mem_map_of_mem List.length hr0)) (le_max_right _ _)
  have hhle : headers.length ≤ max headers.length ((data.map List.length).foldr max 0) :=
    le_max_left _ _
  by_cases hh : headers = []
  · rw [if_neg (by simp [hh])]
    simp only [List.length_append, List.length_replicate, List.length_map,
      List.length_range]
    omega
  · rw [if_pos hh]
    simp only [List.length_append, List.length_replicate]
    omega

/-- The decoded table is always uniform: every data row has exactly the
headers' width. -/
theorem adf_table_to_rows_uniform (t : J) :
    ∀ r ∈ (adf_table_to_rows t).2, r.length = (adf_table_to_rows t).1.length := by
  unfold adf_table_to_rows
  cases contentList t with
  | nil => exact normalizeTable_uniform_out _ _
  | cons row0 rest =>
    by_cases hh : isHeaderRow row0
    · simp only [hh, if_true]
      exact normalizeTable_uniform_out _ _
    · simp only [hh, if_false]
      exact normalizeTable_uniform_out _ _

theorem JObj.keyInduction (P : JObj → Prop) (h0 : P .nil)
    (h1 : ∀ k v rest, P rest → P (.cons k v rest)) : ∀ fs : JObj, P fs
  | .nil => h0
  | .cons k v rest => h1 k v rest (JObj.keyInduction P h0 h1 rest)

theorem JList.itemInduction (P : JList → Prop) (h0 : P .nil)
    (h1 : ∀ x rest, P rest → P (.cons x rest)) : ∀ l : JList, P l
  | .nil => h0
  | .cons x rest => h1 x rest (JList.itemInduction P h0 h1 rest)

theorem extractContentChildren_cons_ne (k : String) (v : J) (rest : JObj)
    (hk : k ≠ "content") :
    extractContentChildren (.cons k v rest) = extractContentChildren rest := by
  cases v <;> simp [extractContentChildren, hk]

theorem extractContentChildren_lookup {fs : JObj} {l : JList} :
    fs.lookup "content" = some (.arr l) →
    extractContentChildren fs = extractTextList l := by
  induction fs using JObj.keyInduction with
  | h0 => intro h; simp [JObj.lookup] at h
  | h1 k v rest ih =>
    intro h
    by_cases hk : k = "content"
    · subst hk
      simp only [JObj.lookup, if_pos rfl] at h
      cases h
      simp [extractContentChildren]
    · simp only [JObj.lookup, if_neg hk] at h
      rw [extractContentChildren_cons_ne k v rest hk]
      exact ih h

theorem extractContentChildren_none {fs : JObj} :
    (∀ l : JList, fs.lookup "content" ≠ some (.arr l)) →
    extractContentChildren fs = "" := by
  induction fs using JObj.keyInduction with
  | h0 => intro h; rfl
  | h1 k v rest ih =>
    intro h
    by_cases hk : k = "content"
    · subst hk
      cases v with
      | null => simp [extractContentChildren]
      | bool b => simp [extractContentChildren]
      | num n => simp [extractContentChildren]
      | str s => simp [extractContentChildren]
      | obj o => simp [extractContentChildren]
      | arr children => exact absurd (by simp [JObj.lookup]) (h children)
    · rw [extractContentChildren_cons_ne k v rest hk]
      apply ih
      intro l hl
      apply h l
      simp only [JObj.lookup, if_neg hk]
      exact hl

theorem extractContentChildrenPy_cons_ne (k : String) (v : J) (rest : JObj)
    (hk : k ≠ "content") :
    extractContentChildrenPy (.cons k v rest) = extractContentChildrenPy rest := by
  cases v <;> simp [extractContentChildrenPy, hk]

theorem textOkContent_cons_ne (k : String) (v : J) (rest : JObj)
    (hk : k ≠ "content") :
    textOkContent (.cons k v rest) = textOkContent rest := by
  cases v <;> simp [textOkContent, hk]

theorem extractContentChildrenPy_lookup {fs : JObj} {l : JList} :
    fs.lookup "content" = some (.arr l) →
    extractContentChildrenPy fs = extractTextListPy l := by
  induction fs using JObj.keyInduction with
  | h0 => intro h; simp [JObj.lookup] at h
  | h1 k v rest ih =>
    intro h
    by_cases hk : k = "content"
    · subst hk
      simp only [JObj.lookup, if_pos rfl] at h
      cases h
      simp [extractContentChildrenPy]
    · simp only [JObj.lookup, if_neg hk] at h
      rw [extractContentChildrenPy_cons_ne k v rest hk]
      exact ih h

theorem extractContentChildrenPy_none {fs : JObj} :
    (∀ l : JList, fs.lookup "content" ≠ some (.arr l)) →
    extractContentChildrenPy fs = some "" := by
  induction fs using JObj.keyInduction with
  | h0 => intro h; rfl
  | h1 k v rest ih =>
    intro h
    by_cases hk : k = "content"
    · subst hk
      cases v with
      | null => simp [extractContentChildrenPy]
      | bool b => simp [extractContentChildrenPy]
      | num n => simp [extractContentChildrenPy]
      | str s => simp [extractContentChildrenPy]
      | obj o => simp [extractContentChildrenPy]
      | arr children => exact absurd (by simp [JObj.lookup]) (h children)
    · rw [extractContentChildrenPy_cons_ne k v rest hk]
      apply ih
      intro l hl
      apply h l
      simp only [JObj.lookup, if_neg hk]
      exact hl

mutual

/-- On inputs whose reachable text-run nodes are well-typed, the faithful
extraction returns — no exception — and its result is exactly the string
computed by the string-level `extract_text`. -/
theorem extract_text_py_str : ∀ j : J, textOk j = true →
    extract_text_py j = some (.str (extract_text j))
  | .null, _ => rfl
  | .bool _, _ => rfl
  | .num _, _ => rfl
  | .str _, _ => rfl
  | .arr _, _ => rfl
  | .obj fields, h => by
    by_cases ht : fields.lookup "type" = some (J.str "text")
    · simp only [textOk, if_pos ht] at h
      simp only [extract_text_py, extract_text, if_pos ht, textFallback]
      cases hx : fields.lookup "text" with
      | none => simp [hx]
      | some v =>
        cases v <;> rw [hx] at h <;> simp_all
    · simp only [textOk, if_neg ht] at h
      have hc := extractContentChildrenPy_str fields h
      simp only [extract_text_py, extract_text, if_neg ht, hc]
      rfl

theorem extractContentChildrenPy_str : ∀ fs : JObj, textOkContent fs = true →
    extractContentChildrenPy fs = some (extractContentChildren fs)
  | .nil, _ => rfl
  | .cons k v rest, h => by
    by_cases hk : k = "content"
    · subst hk
      cases v with
      | arr children =>
        simp only [textOkContent, if_pos rfl] at h
        have := extractTextListPy_str children h
        simp [extractContentChildrenPy, extractContentChildren, this]
      | null => rfl
      | bool b => rfl
      | num n => rfl
      | str s => rfl
      | obj o => rfl
    · rw [textOkContent_cons_ne k v rest hk] at h
      rw [extractContentChildrenPy_cons_ne k v rest hk,
        extractContentChildren_cons_ne k v rest hk]
      exact extractContentChildrenPy_str rest h

theorem extractTextListPy_str : ∀ l : JList, textOkList l = true →
    extractTextListPy l = some (extractTextList l)
  | .nil, _ => rfl
  | .cons c rest, h => by
    simp only [textOkList, Bool.and_eq_true] at h
    have hc := extract_text_py_str c h.1
    have hrest := extractTextListPy_str rest h.2
    simp only [extractTextListPy, hc, extractTextList, hrest]
    rfl

end

theorem decodeDataRows_length : ∀ l : JList, (decodeDataRows l).length = l.length
  | .nil => rfl
  | .cons row rest => by
    simp [decodeDataRows, JList.length, decodeDataRows_length rest]
    omega

theorem appendToContent_lookup_content {nt : J} :
    ∀ {fs : JObj} {l : JList}, fs.lookup "content" = some (.arr l) →
      (appendToContent nt fs).lookup "content" =
        some (.arr (l.append (.cons nt .nil)))
  | .nil, _, h => by simp [JObj.lookup] at h
  | .cons k' v rest, l, h => by
    by_cases hk : k' = "content"
    · subst hk
      simp only [JObj.lookup, if_pos rfl] at h
      cases h
      simp [appendToContent, JObj.lookup]
    · simp only [JObj.lookup, if_neg hk] at h
      simp only [appendToContent, if_neg hk, JObj.lookup]
      exact appendToContent_lookup_content h

theorem appendToContent_lookup_other {nt : J} {k : String} (hk : k ≠ "content") :
    ∀ fs : JObj, (appendToContent nt fs).lookup k = fs.lookup k
  | .nil => rfl
  | .cons k' v rest => by
    by_cases hk' : k' = "content"
    · subst hk'
      cases v <;> simp only [appendToContent, if_pos rfl, JObj.lookup] <;>
        rw [if_neg (fun h => hk h.symm), if_neg (fun h => hk h.symm)]
    · simp only [appendToContent, if_neg hk', JObj.lookup]
      by_cases hkk : k' = k
      · simp [hkk]
      · rw [if_neg hkk, if_neg hkk]
        exact appendToContent_lookup_other hk rest

mutual

/-- `containsTable` answers exactly whether the spec-level replacement
finds something to replace. -/
theorem containsTable_iff (nt : J) :
    ∀ j : J, containsTable j = true ↔ (replaceFirstTableSpec nt j).isSome
  | .null => by simp [containsTable, replaceFirstTableSpec]
  | .bool _ => by simp [containsTable, replaceFirstTableSpec]
  | .num _ => by simp [containsTable, replaceFirstTableSpec]
  | .str _ => by simp [containsTable, replaceFirstTableSpec]
  | .obj fields => by
    by_cases htab : fields.lookup "type" == some (J.str "table")
    · simp [containsTable, replaceFirstTableSpec, htab]
    · have hobj := containsTableObj_iff nt fields
      simp [containsTable, replaceFirstTableSpec, htab, hobj]
  | .arr items => by
    have harr := containsTableArr_iff nt items
    simp [containsTable, replaceFirstTableSpec, harr]

theorem containsTableObj_iff (nt : J) :
    ∀ fs : JObj, containsTableObj fs = true ↔ (replaceFirstTableSpecObj nt fs).isSome
  | .nil => by simp [containsTableObj, replaceFirstTableSpecObj]
  | .cons k v rest => by
    have hv := containsTable_iff nt v
    have hrest := containsTableObj_iff nt rest
    simp only [containsTableObj, Bool.or_eq_true, replaceFirstTableSpecObj]
    cases h : replaceFirstTableSpec nt v with
    | some v' => simp [h] at hv; simp [hv]
    | none => simp [h] at hv; simp [hv, hrest]

theorem containsTableArr_iff (nt : J) :
    ∀ l : JList, containsTableArr l = true ↔ (replaceFirstTableSpecArr nt l).isSome
  | .nil => by simp [containsTableArr, replaceFirstTableSpecArr]
  | .cons item rest => by
    have hitem := containsTable_iff nt item
    have hrest := containsTableArr_iff nt rest
    simp only [containsTableArr, Bool.or_eq_true, replaceFirstTableSpecArr]
    cases h : replaceFirstTableSpec nt item with
    | some item' => simp [h] at hitem; simp [hitem]
    | none => simp [h] at hitem; simp [hitem, hrest]

end

theorem extract_text_make_paragraph (t : String) :
    extract_text (make_paragraph t) = t := by
  simp [extract_text, extractTextList, extractContentChildren, textFallback,
    make_paragraph, JObj.lookup]

theorem cellText_make_table_header_cell (t : String) :
    cellText (make_table_header_cell t) = pyStrip t := by
  simp [cellText, contentList, make_table_header_cell, JObj.lookup, extractTextList,
    extract_text_make_paragraph]

theorem cellText_make_table_cell (t : String) :
    cellText (make_table_cell t) = pyStrip t := by
  simp [cellText, contentList, make_table_cell, JObj.lookup, extractTextList,
    extract_text_make_paragraph]

theorem cellTexts_header_cells (h : List String) :
    cellTexts (JList.ofList (h.map make_table_header_cell)) = h.map pyStrip := by
  induction h with
  | nil => rfl
  | cons s rest ih =>
    simp [JList.ofList, cellTexts, cellText_make_table_header_cell, ih]

theorem cellTexts_data_cells (r : List String) :
    cellTexts (JList.ofList (r.map make_table_cell)) = r.map pyStrip := by
  induction r with
  | nil => rfl
  | cons s rest ih =>
    simp [JList.ofList, cellTexts, cellText_make_table_cell, ih]

theorem allHeaderCells_header_cells (h : List String) :
    allHeaderCells (JList.ofList (h.map make_table_header_cell)) = true := by
  induction h with
  | nil => rfl
  | cons s rest ih =>
    simp [JList.ofList, allHeaderCells, isHeaderCell, make_table_header_cell,
      JObj.lookup, ih]

theorem decodeDataRows_build (r : List (List String)) :
    decodeDataRows (JList.ofList (r.map (fun row =>
        J.obj (.cons "type" (.str "tableRow")
          (.cons "content" (.arr (JList.ofList (row.map make_table_cell))) .nil))))) =
      r.map (List.map pyStrip) := by
  induction r with
  | nil => rfl
  | cons row rest ih =>
    simp [JList.ofList, decodeDataRows, contentList, JObj.lookup,
      cellTexts_data_cells, ih]

/-- Decoding a built table (non-empty header list): the first row is
recognized as the header row and every cell string comes back stripped. -/
theorem adf_decode_build (h : List String) (r : List (List String)) (hne : h ≠ []) :
    adf_table_to_rows (build_adf_table h r) =
      normalizeTable (h.map pyStrip) (r.map (List.map pyStrip)) := by
  have hcells : contentList (build_adf_table h r) =
      .cons (J.obj (.cons "type" (.str "tableRow")
        (.cons "content" (.arr (JList.ofList (h.map make_table_header_cell))) .nil)))
        (JList.ofList (r.map (fun row =>
          J.obj (.cons "type" (.str "tableRow")
            (.cons "content" (.arr (JList.ofList (row.map make_table_cell))) .nil))))) := by
    simp [build_adf_table, contentList, JObj.lookup, JList.ofList]
  have hhead : isHeaderRow (J.obj (.cons "type" (.str "tableRow")
      (.cons "content" (.arr (JList.ofList (h.map make_table_header_cell))) .nil))) = true := by
    simp [isHeaderRow, contentList, JObj.lookup, allHeaderCells_header_cells]
    cases h with
    | nil => exact absurd rfl hne
    | cons s rest => simp [JList.ofList, JList.isEmpty]
  simp only [adf_table_to_rows, hcells, hhead, if_true]
  congr 1
  · simp [contentList, JObj.lookup, cellTexts_header_cells h]
  · exact decodeDataRows_build r

mutual

/-- Once `replaced` is set, `walk` can no longer change anything. -/
theorem walkNode_replaced (nt : J) : ∀ j : J, walkNode nt true j = (j, true)
  | .null => rfl
  | .bool _ => rfl
  | .num _ => rfl
  | .str _ => rfl
  | .obj fields => by
    simp [walkNode, walkObj_replaced nt fields]
  | .arr items => by
    simp [walkNode, walkArr_replaced nt items]

theorem walkObj_replaced (nt : J) : ∀ fs : JObj, walkObj nt true fs = (fs, true)
  | .nil => rfl
  | .cons k v rest => by
    simp [walkObj, walkNode_replaced nt v, walkObj_replaced nt rest]

theorem walkArr_replaced (nt : J) : ∀ l : JList, walkArr nt true l = (l, true)
  | .nil => rfl
  | .cons item rest => by
    simp [walkArr, walkNode_replaced nt item, walkArr_replaced nt rest]

end

theorem isTableDict_spec {nt item : J} (h : isTableDict item = true) :
    replaceFirstTableSpec nt item = some nt := by
  cases item <;> simp [isTableDict] at h
  simp [replaceFirstTableSpec, h]

mutual

/-- `walk` from a clean flag performs exactly the spec-level first-table
replacement: it rewrites the tree to `replaceFirstTableSpec`'s answer when
a table exists, and returns the tree untouched when none does. -/
theorem walkNode_spec (nt : J) : ∀ j : J,
    walkNode nt false j =
      (match replaceFirstTableSpec nt j with
       | some j' => (j', true)
       | none => (j, false))
  | .null => rfl
  | .bool _ => rfl
  | .num _ => rfl
  | .str _ => rfl
  | .obj fields => by
    by_cases htab : fields.lookup "type" == some (J.str "table")
    · simp [walkNode, htab, replaceFirstTableSpec]
    · have hobj := walkObj_spec nt fields
      simp only [walkNode, htab, Bool.not_false, Bool.true_and, if_neg, Bool.false_eq_true,
        not_false_eq_true, replaceFirstTableSpec, if_false]
      rw [hobj]
      cases h : replaceFirstTableSpecObj nt fields <;> simp [h, htab]
  | .arr items => by
    have harr := walkArr_spec nt items
    simp only [walkNode, replaceFirstTableSpec]
    rw [harr]
    cases h : replaceFirstTableSpecArr nt items <;> simp [h]

theorem walkObj_spec (nt : J) : ∀ fs : JObj,
    walkObj nt false fs =
      (match replaceFirstTableSpecObj nt fs with
       | some fs' => (fs', true)
       | none => (fs, false))
  | .nil => rfl
  | .cons k v rest => by
    have hv := walkNode_spec nt v
    simp only [walkObj, replaceFirstTableSpecObj]
    rw [hv]
    cases h : replaceFirstTableSpec nt v with
    | some v' => simp [h, walkObj_replaced nt rest]
    | none =>
      have hrest := walkObj_spec nt rest
      rw [hrest]
      cases h2 : replaceFirstTableSpecObj nt rest <;> simp [h2]

theorem walkArr_spec (nt : J) : ∀ l : JList,
    walkArr nt false l =
      (match replaceFirstTableSpecArr nt l with
       | some l' => (l', true)
       | none => (l, false))
  | .nil => rfl
  | .cons item rest => by
    by_cases htab : isTableDict item
    · simp [walkArr, htab, replaceFirstTableSpecArr, isTableDict_spec htab]
    · have hitem := walkNode_spec nt item
      simp only [walkArr, htab, Bool.not_false, Bool.true_and, Bool.false_eq_true,
        not_false_eq_true, if_false, replaceFirstTableSpecArr]
      rw [hitem]
      cases h : replaceFirstTableSpec nt item with
      | some item' => simp [h, walkArr_replaced nt rest]
      | none =>
        have hrest := walkArr_spec nt rest
        rw [hrest]
        cases h2 : replaceFirstTableSpecArr nt rest <;> simp [h2]

end

/-- C1: the claim states the appended Order is `max(numeric value of
every non-empty Order cell) + 1`, falling back to `row_count - 1`
(clamped at 0) when no numeric Order values exist (`claimedNextOrder`).
The code disagrees: on a schema-correct table whose single row has the
non-numeric Order `"x"`, `int` raises inside `max`, `max_order` becomes
`len(rows) - 1 = 0`, and the appended row gets Order `"1"` — while the
claimed rule yields `"0"`. -/
theorem c1_counterexample :
    ¬ (∀ (comp branch change_req ext_dep : String) (headers : List String)
        (rows : List (List String)),
        headers.map normHeader = expected_headers.map normHeader →
        rows.find? (rowMatchesComp comp) = none →
        upsertEngine comp branch change_req ext_dep true headers rows =
          .added [toString (claimedNextOrder rows), comp, branch, change_req, ext_dep]
            (rows ++ [[toString (claimedNextOrder rows), comp, branch, change_req, ext_dep]])) := by
  intro hclaim
  have h := hclaim "b" "dev" "" "" expected_headers [["x", "a", "", "", ""]]
    (by decide) (by decide)
  exact absurd h (by decide)

/-- C1 (amended): for an upsert whose component matches no existing row
(schema already valid), the engine appends exactly
`[Order, component, branch, change_request, ext_dependency]` at the end
of the row list and reports Added, where Order is: if every non-empty
Order cell parses as an integer, `max(values) + 1` when that max is
non-negative and `0` otherwise (hence `0` for an empty table); if any
non-empty Order cell fails to parse, `row_count` (not `row_count - 1`). -/
theorem c1_amended (comp branch change_req ext_dep : String)
    (headers : List String) (rows : List (List String))
    (hschema : headers.map normHeader = expected_headers.map normHeader)
    (hnomatch : rows.find? (rowMatchesComp comp) = none) :
    upsertEngine comp branch change_req ext_dep true headers rows =
      .added [toString (nextOrder rows), comp, branch, change_req, ext_dep]
        (rows ++ [[toString (nextOrder rows), comp, branch, change_req, ext_dep]]) ∧
    (∀ vals : List Int, (orderCellStrings rows).mapM pyInt? = some vals →
      nextOrder rows = (match vals with
        | [] => 0
        | v :: vs => if vs.foldl max v ≥ 0 then vs.foldl max v + 1 else 0)) ∧
    ((orderCellStrings rows).mapM pyInt? = none → nextOrder rows = rows.length) := by
  refine ⟨?_, ?_, ?_⟩
  · simp only [upsertEngine, if_true]
    rw [if_neg (by simp [hschema])]
    rw [hnomatch]
  · intro vals hvals
    cases vals with
    | nil =>
      unfold nextOrder maxOrderOf
      rw [hvals]
      norm_num
    | cons v vs =>
      unfold nextOrder maxOrderOf
      rw [hvals]
  · intro hnone
    unfold nextOrder maxOrderOf
    rw [hnone]
    show (if (rows.length : Int) - 1 >= 0 then (rows.length : Int) - 1 + 1 else 0) =
      rows.length
    split <;> omega

/-- C1 (witness): concrete scenario A of the spec — appending `svc-b`
after `svc-a` with Order `0` yields Order `1`. -/
theorem c1_witness :
    upsertEngine "svc-b" "dev" "" "" true expected_headers
        [["0", "svc-a", "main", "", ""]] =
      .added ["1", "svc-b", "dev", "", ""]
        [["0", "svc-a", "main", "", ""], ["1", "svc-b", "dev", "", ""]] := by
  have h := (c1_amended "svc-b" "dev" "" "" expected_headers
    [["0", "svc-a", "main", "", ""]] (by decide) (by decide)).1
  have e : toString (nextOrder [["0", "svc-a", "main", "", ""]]) = "1" := by decide
  rw [e] at h
  exact h

/-- C2 (confirmed): when some row's Component cell equals the upserted
component after stripping and lowercasing (and the schema is valid), the
engine reports Conflict carrying the first matching row (`List.find?`
returns the first match), and the row list at exit is exactly the input
row list — no row is touched. -/
theorem c2_duplicate_conflict (comp branch change_req ext_dep : String)
    (headers : List String) (rows : List (List String)) (r0 : List String)
    (hschema : headers.map normHeader = expected_headers.map normHeader)
    (hfound : rows.find? (rowMatchesComp comp) = some r0) :
    upsertEngine comp branch change_req ext_dep true headers rows =
      .conflict r0 rows := by
  simp only [upsertEngine, if_true]
  rw [if_neg (by simp [hschema])]
  rw [hfound]

/-- C2 (witness): concrete scenario B of the spec — upserting `svc-a`
into a table that already has it conflicts and surfaces that row. -/
theorem c2_witness :
    upsertEngine "svc-a" "release/2.0" "" "" true expected_headers
        [["0", "svc-a", "main", "", ""]] =
      .conflict ["0", "svc-a", "main", "", ""] [["0", "svc-a", "main", "", ""]] :=
  c2_duplicate_conflict "svc-a" "release/2.0" "" "" expected_headers
    [["0", "svc-a", "main", "", ""]] ["0", "svc-a", "main", "", ""]
    (by decide) (by decide)

/-- C5: the claim states a component that is empty after trimming fails
with EmptyKey before any table access.  The code only rejects a
Python-falsy (exactly empty) component at argument validation; a
whitespace-only component passes it, is stripped to `""` by the CSV
round-trip, and the upsert proceeds — here appending a row whose
Component cell is empty to an empty synthesized table. -/
theorem c5_counterexample :
    pyStrip " " = "" ∧
    upsertCli "K" "dev" " " false [] [] =
      .added ["0", "", "dev", "", ""] [["0", "", "dev", "", ""]] ∧
    UpsertOutcome.added ["0", "", "dev", "", ""] [["0", "", "dev", "", ""]] ≠
      .argError :=
  ⟨by decide, by decide, by decide⟩

/-- C5 (amended): only a component that is empty as given (before any
trimming) makes the upsert invocation fail at argument validation, before
any table access; a whitespace-only component is not rejected. -/
theorem c5_amended (jira_key branch_name component : String) (has_table : Bool)
    (headers : List String) (rows : List (List String))
    (hc : component = "") :
    upsertCli jira_key branch_name component has_table headers rows = .argError := by
  unfold upsertCli
  rw [if_pos (Or.inr (Or.inr hc))]

/-- C5 (witness): the empty component is rejected up front. -/
theorem c5_witness :
    upsertCli "PROJ-1" "dev" "" true expected_headers [] = .argError :=
  c5_amended "PROJ-1" "dev" "" true expected_headers [] rfl

/-- C6 (confirmed): whenever the stripped-and-lowercased headers differ
from the equally normalized canonical schema, the upsert fails with
SchemaMismatch carrying the expected schema, and the row list at exit is
the input row list — no row is modified. -/
theorem c6_schema_mismatch (comp branch change_req ext_dep : String)
    (headers : List String) (rows : List (List String))
    (hmis : headers.map normHeader ≠ expected_headers.map normHeader) :
    upsertEngine comp branch change_req ext_dep true headers rows =
      .schemaMismatch expected_headers rows := by
  simp only [upsertEngine, if_true]
  rw [if_pos (by simpa using hmis)]

/-- C6 (witness): a header list with `Branch` instead of `Branch Name`
is rejected with the expected schema reported. -/
theorem c6_witness :
    upsertEngine "svc-a" "dev" "" "" true
        ["Order", "Component", "Branch", "Change Request", "External Dependency"]
        [["0", "x", "y", "", ""]] =
      .schemaMismatch expected_headers [["0", "x", "y", "", ""]] :=
  c6_schema_mismatch "svc-a" "dev" "" ""
    ["Order", "Component", "Branch", "Change Request", "External Dependency"]
    [["0", "x", "y", "", ""]] (by decide)

/-- C7 (confirmed): width normalization is idempotent — on a (headers,
rows) pair whose rows already all have the headers' width, the
normalization step returns the pair unchanged (when headers are empty,
so is every row, and the synthesized `Col1..ColW` list is the empty
headers list again). -/
theorem c7_normalize_idempotent (headers : List String)
    (rows : List (List String))
    (huniform : ∀ r ∈ rows, r.length = headers.length) :
    normalizeTable headers rows = (headers, rows) :=
  normalizeTable_of_uniform headers rows huniform

/-- C7 (witness): a concrete already-normalized table is fixed. -/
theorem c7_witness :
    normalizeTable expected_headers
        [["0", "svc-a", "main", "", ""], ["1", "svc-b", "dev", "", ""]] =
      (expected_headers,
        [["0", "svc-a", "main", "", ""], ["1", "svc-b", "dev", "", ""]]) :=
  c7_normalize_idempotent expected_headers
    [["0", "svc-a", "main", "", ""], ["1", "svc-b", "dev", "", ""]] (by decide)

/-- C3: the claim states the decode-of-build round-trip holds for every
headers/rows pair of canonical text.  It fails for perfectly canonical
cell text as soon as the widths are ragged: building from headers `["a"]`
and the single wider row `["x", "y"]` decodes to headers `["a", ""]` —
width normalization pads the headers — so the pair does not come back
unchanged. -/
theorem c3_counterexample :
    ¬ (∀ (h : List String) (r : List (List String)),
        adf_table_to_rows (build_adf_table h r) = (h, r)) := by
  intro hclaim
  have h := hclaim ["a"] [["x", "y"]]
  exact absurd h (by decide)

/-- C3 (amended): the decode-of-build round-trip
`adf_table_to_rows (build_adf_table h r) = (h, r)` holds whenever `h` is
non-empty, every row of `r` has exactly the headers' width, and every
header and cell string equals its own stripped form (the builder wraps
each string in a single paragraph, and the decoder strips each cell's
extracted text). -/
theorem c3_amended (h : List String) (r : List (List String)) (hne : h ≠ [])
    (hwidth : ∀ row ∈ r, row.length = h.length)
    (hh : ∀ s ∈ h, pyStrip s = s)
    (hr : ∀ row ∈ r, ∀ c ∈ row, pyStrip c = c) :
    adf_table_to_rows (build_adf_table h r) = (h, r) := by
  rw [adf_decode_build h r hne]
  have hh' : h.map pyStrip = h := by
    conv_rhs => rw [show h = h.map id from (List.map_id h).symm]
    exact List.map_congr_left hh
  have hr' : r.map (List.map pyStrip) = r := by
    conv_rhs => rw [show r = r.map id from (List.map_id r).symm]
    apply List.map_congr_left
    intro row hrow
    conv_rhs => rw [show row = row.map id from (List.map_id row).symm]
    exact List.map_congr_left (hr row hrow)
  rw [hh', hr']
  exact normalizeTable_of_uniform h r hwidth

/-- C3 (witness): the canonical scenario-A table round-trips. -/
theorem c3_witness :
    adf_table_to_rows (build_adf_table expected_headers
        [["0", "svc-a", "main", "", ""]]) =
      (expected_headers, [["0", "svc-a", "main", "", ""]]) :=
  c3_amended expected_headers [["0", "svc-a", "main", "", ""]]
    (by decide) (by decide) (by decide) (by decide)

/-- C4: the claim states row 0 is the header row iff every one of its
cells is header-typed.  A first row with no cells at all vacuously
satisfies "every cell is header-typed", yet the decoder does not treat it
as a header row (the code additionally requires `len(cells) > 0`):
decoding a table whose single row is empty yields one data row, not
zero. -/
theorem c4_counterexample :
    ¬ (∀ (t row0 : J) (rest : JList), wfTable t = true →
        contentList t = .cons row0 rest →
        ((adf_table_to_rows t).2.length = rest.length ↔
          allHeaderCells (contentList row0) = true)) := by
  intro hclaim
  have h := hclaim tableEmptyRow rowNoCells .nil (by decide) (by decide)
  have h2 := h.mpr (by decide)
  exact absurd h2 (by decide)

/-- C4 (amended): for a table whose content is a row list (well-formed in
the sense that the Python decoder does not raise), row 0 is treated as
the header row — exactly one decoded data row per remaining row — iff it
has at least one cell and every one of its cells is header-typed; and
when it is not, the decoded headers are exactly the positional
placeholders `Col1..ColW`. -/
theorem c4_amended (t row0 : J) (rest : JList) (hwf : wfTable t = true)
    (hrows : contentList t = .cons row0 rest) :
    ((adf_table_to_rows t).2.length = rest.length ↔
      (allHeaderCells (contentList row0) = true ∧
        (contentList row0).isEmpty = false)) ∧
    (¬ (allHeaderCells (contentList row0) = true ∧
        (contentList row0).isEmpty = false) →
      (adf_table_to_rows t).1 =
        (List.range (adf_table_to_rows t).1.length).map
          (fun i => "Col" ++ toString (i + 1))) := by
  by_cases hb : isHeaderRow row0 = true
  · have hconj : allHeaderCells (contentList row0) = true ∧
        (contentList row0).isEmpty = false := by
      simpa [isHeaderRow] using hb
    constructor
    · simp only [adf_table_to_rows, hrows, hb, if_true]
      simp only [normalizeTable, List.length_map]
      rw [decodeDataRows_length rest]
      simp [hconj]
    · intro hnot
      exact absurd hconj hnot
  · have hconj : ¬ (allHeaderCells (contentList row0) = true ∧
        (contentList row0).isEmpty = false) := by
      intro hc
      exact hb (by simp [isHeaderRow, hc.1, hc.2])
    rw [Bool.not_eq_true] at hb
    constructor
    · simp only [adf_table_to_rows, hrows, hb, Bool.false_eq_true, if_false]
      simp only [normalizeTable, List.length_map, List.length_cons]
      rw [decodeDataRows_length rest]
      simp only [hconj, iff_false]
      intro hlen
      omega
    · intro _
      simp only [adf_table_to_rows, hrows, hb, Bool.false_eq_true, if_false]
      simp only [normalizeTable]
      rw [if_neg (by simp)]
      simp

/-- C4 (witness): a single-row table whose row is one header cell is
decoded with that row as the header: zero data rows remain. -/
theorem c4_witness : (adf_table_to_rows tableHdr).2.length = JList.nil.length :=
  (c4_amended tableHdr
    (J.obj (.cons "type" (.str "tableRow")
      (.cons "content" (.arr (.cons cellHdrEmpty .nil)) .nil)))
    .nil (by decide) (by decide)).1.mpr (by decide)

/-- C8: the claim asserts text extraction is total — it never fails and
never throws on any JSON-shaped input.  It is not: main.py:99 returns a
text-run node's `text` field raw even when it is not a string, and the
parent's `txt += extract_text(ch)` at main.py:108 then raises
`TypeError`.  On a paragraph whose only child is
`{"type": "text", "text": 5}` the program crashes: the faithful model
`extract_text_py` yields `none` (an escaped exception). -/
theorem c8_counterexample :
    ¬ ((∀ (fields : JObj) (s : String),
          fields.lookup "type" = some (.str "text") →
          fields.lookup "text" = some (.str s) →
          extract_text_py (.obj fields) = some (.str s)) ∧
       (∀ (fields : JObj) (children : JList),
          fields.lookup "content" = some (.arr children) →
          extract_text_py (.obj fields) = (extractTextListPy children).map J.str) ∧
       (∀ j : J, (∀ fields : JObj, j ≠ .obj fields) →
          extract_text_py j = some (.str "")) ∧
       (∀ j : J, (extract_text_py j).isSome = true)) := by
  rintro ⟨-, -, -, h4⟩
  have h := h4 paraBadChild
  exact absurd h (by decide)

/-- C8 (amended): extraction returns `node.get("text", "")` of a
text-run node as-is — even a non-string value comes back raw; any other
object node returns its own string `text` field (empty when absent or
not a string) followed by the in-order concatenation of its `content`
children's extractions (none when `content` is absent or not a list),
raising `TypeError` — modelled as `none` — when a child's extraction is
not a string; any non-object value returns the empty string.  Extraction
is total and exception-free only on trees whose reachable text-run nodes
carry a string `text` field or none (`textOk`), and there it returns
exactly the string the table decoder's `extract_text` computes. -/
theorem c8_amended :
    (∀ (fields : JObj) (v : J),
        fields.lookup "type" = some (.str "text") →
        fields.lookup "text" = some v →
        extract_text_py (.obj fields) = some v) ∧
    (∀ fields : JObj,
        fields.lookup "type" = some (.str "text") →
        fields.lookup "text" = none →
        extract_text_py (.obj fields) = some (.str "")) ∧
    (∀ (fields : JObj) (children : JList),
        fields.lookup "type" ≠ some (.str "text") →
        fields.lookup "content" = some (.arr children) →
        extract_text_py (.obj fields) =
          (extractTextListPy children).map
            (fun s => .str (textFallback fields ++ s))) ∧
    (∀ fields : JObj,
        fields.lookup "type" ≠ some (.str "text") →
        (∀ children : JList, fields.lookup "content" ≠ some (.arr children)) →
        extract_text_py (.obj fields) = some (.str (textFallback fields))) ∧
    (∀ j : J, (∀ fields : JObj, j ≠ .obj fields) →
        extract_text_py j = some (.str "")) ∧
    (∀ j : J, textOk j = true →
        extract_text_py j = some (.str (extract_text j))) := by
  refine ⟨?_, ?_, ?_, ?_, ?_, ?_⟩
  · intro fields v ht htext
    simp [extract_text_py, ht, htext]
  · intro fields ht htext
    simp [extract_text_py, ht, htext]
  · intro fields children ht hcontent
    simp only [extract_text_py, if_neg ht]
    rw [extractContentChildrenPy_lookup hcontent]
  · intro fields ht hnone
    simp only [extract_text_py, if_neg ht]
    rw [extractContentChildrenPy_none hnone]
    simp
  · intro j hj
    cases j with
    | obj fields => exact absurd rfl (hj fields)
    | null => rfl
    | bool b => rfl
    | num n => rfl
    | str s => rfl
    | arr l => rfl
  · exact extract_text_py_str

/-- C8 (witness): a malformed text run returns its raw number; a mixed
node returns its text fallback followed by its children; a bare string
extracts empty; a well-formed paragraph extracts totally, agreeing with
the decoder's string-level extraction. -/
theorem c8_witness :
    extract_text_py textNodeNum = some (.num 5) ∧
    extract_text_py (.obj paraXYFields) = some (.str "xy") ∧
    extract_text_py (.str "zzz") = some (.str "") ∧
    extract_text_py (make_paragraph "hello") = some (.str "hello") := by
  refine ⟨?_, ?_, ?_, ?_⟩
  · exact c8_amended.1 (.cons "type" (.str "text") (.cons "text" (.num 5) .nil))
      (.num 5) (by decide) (by decide)
  · have h := c8_amended.2.2.1 paraXYFields (.cons textNodeY .nil)
      (by decide) (by decide)
    have e : (extractTextListPy (.cons textNodeY .nil)).map
        (fun s => J.str (textFallback paraXYFields ++ s)) = some (.str "xy") := by
      decide
    rw [e] at h
    exact h
  · exact c8_amended.2.2.2.2.1 (.str "zzz") (fun fields h => J.noConfusion h)
  · have h := c8_amended.2.2.2.2.2 (make_paragraph "hello") (by decide)
    have e : J.str (extract_text (make_paragraph "hello")) = .str "hello" := by
      decide
    rw [e] at h
    exact h

/-- C9: the claim quantifies over every tree containing a table.  It
fails when the root is a JSON *array*: the code's guard is
`isinstance(adf_desc, dict)`, so an array root containing a table is
discarded wholesale and replaced by a fresh one-table doc — the table is
not replaced in place and its siblings are dropped. -/
theorem c9_counterexample :
    ¬ (∀ (tree nt : J), containsTable tree = true →
        ∃ t', replaceFirstTableSpec nt tree = some t' ∧
          replace_or_append_first_table tree nt = (t', true)) := by
  intro hclaim
  obtain ⟨t', h1, h2⟩ := hclaim (.arr (.cons tableBare .nil)) tableFresh (by decide)
  rw [show replaceFirstTableSpec tableFresh (.arr (.cons tableBare .nil)) =
      some (.arr (.cons tableFresh .nil)) from by decide] at h1
  cases h1
  exact absurd h2 (by decide)

/-- C9 (amended): for a tree whose root is a JSON object: when it
contains a table, the splice returns exactly the tree with the first
table in pre-order depth-first order replaced in place
(`replaceFirstTableSpec`, which by construction changes that one position
and keeps every other node); when it contains no table but has a
top-level `content` list, the new table is appended at the end of that
list, the other entries of the list are kept in order, and every other
field of the root is unchanged. -/
theorem c9_amended (nt : J) :
    (∀ fields : JObj, containsTable (.obj fields) = true →
      ∃ t', replaceFirstTableSpec nt (.obj fields) = some t' ∧
        replace_or_append_first_table (.obj fields) nt = (t', true)) ∧
    (∀ (fields : JObj) (l : JList), containsTable (.obj fields) = false →
      fields.lookup "content" = some (.arr l) →
      replace_or_append_first_table (.obj fields) nt =
        (.obj (appendToContent nt fields), true) ∧
      (appendToContent nt fields).lookup "content" =
        some (.arr (l.append (.cons nt .nil))) ∧
      (∀ k, k ≠ "content" →
        (appendToContent nt fields).lookup k = fields.lookup k)) := by
  constructor
  · intro fields hct
    have hsp : (replaceFirstTableSpec nt (.obj fields)).isSome :=
      (containsTable_iff nt _).mp hct
    obtain ⟨t', ht'⟩ := Option.isSome_iff_exists.mp hsp
    refine ⟨t', ht', ?_⟩
    cases fields with
    | nil => simp [containsTable, JObj.lookup, containsTableObj] at hct
    | cons k v rest =>
      unfold replace_or_append_first_table
      rw [if_neg (by simp [pyTruthy, JObj.isEmpty])]
      have hw := walkNode_spec nt (.obj (.cons k v rest))
      rw [ht'] at hw
      simp [hw]
  · intro fields l hct hcl
    have hnone : replaceFirstTableSpec nt (.obj fields) = none := by
      cases hsp : replaceFirstTableSpec nt (.obj fields) with
      | none => rfl
      | some t' =>
        have := (containsTable_iff nt (.obj fields)).mpr (by simp [hsp])
        rw [this] at hct
        cases hct
    have hw := walkNode_spec nt (.obj fields)
    rw [hnone] at hw
    cases fields with
    | nil => simp [JObj.lookup] at hcl
    | cons k v rest =>
      refine ⟨?_, appendToContent_lookup_content hcl,
        fun k' hk' => appendToContent_lookup_other hk' _⟩
      unfold replace_or_append_first_table
      rw [if_neg (by simp [pyTruthy, JObj.isEmpty])]
      simp only [hw]
      simp [hcl]

/-- C9 (witness): splicing into a document whose table sits at depth 3
replaces exactly that node (siblings and both surrounding paragraphs
kept); splicing into a table-less document appends at the end of its
content list and leaves the `type` field alone. -/
theorem c9_witness :
    replace_or_append_first_table (.obj docDeepFields) tableFresh =
      (docDeepReplaced, true) ∧
    replace_or_append_first_table (.obj docNoTableFields) tableFresh =
      (.obj (appendToContent tableFresh docNoTableFields), true) ∧
    (appendToContent tableFresh docNoTableFields).lookup "content" =
      some (.arr (.cons (make_paragraph "intro") (.cons tableFresh .nil))) ∧
    (appendToContent tableFresh docNoTableFields).lookup "type" =
      some (.str "doc") := by
  refine ⟨?_, ?_, ?_, ?_⟩
  · obtain ⟨t', h1, h2⟩ := (c9_amended tableFresh).1 docDeepFields (by decide)
    rw [show replaceFirstTableSpec tableFresh (.obj docDeepFields) =
        some docDeepReplaced from by decide] at h1
    cases h1
    exact h2
  · exact ((c9_amended tableFresh).2 docNoTableFields
      (.cons (make_paragraph "intro") .nil) (by decide) (by decide)).1
  · have h := ((c9_amended tableFresh).2 docNoTableFields
      (.cons (make_paragraph "intro") .nil) (by decide) (by decide)).2.1
    simpa [JList.append] using h
  · exact ((c9_amended tableFresh).2 docNoTableFields
      (.cons (make_paragraph "intro") .nil) (by decide) (by decide)).2.2
      "type" (by decide)

/-- C10 (confirmed): whenever the upsert path reports Added on a decoded
table (or on the synthesized empty table when none existed), every row of
the resulting row sequence — pre-existing and appended alike — has
exactly 5 cells: the schema check forces the decoded headers to have
width 5, decoding normalizes every data row to the headers' width, and
the appended row is a 5-element literal. -/
theorem c10_added_width (t : J) (comp branch change_req ext_dep : String)
    (has_table : Bool) (new_row : List String) (finalRows : List (List String))
    (hadd : upsertEngine comp branch change_req ext_dep has_table
        (adf_table_to_rows t).1 (adf_table_to_rows t).2 = .added new_row finalRows) :
    ∀ row ∈ finalRows, row.length = 5 := by
  cases has_table with
  | false =>
    simp only [upsertEngine, Bool.false_eq_true, if_false] at hadd
    rw [if_neg (by simp)] at hadd
    simp only [List.find?_nil] at hadd
    rw [UpsertOutcome.added.injEq] at hadd
    rw [← hadd.2]
    intro row hrow
    simp at hrow
    rw [hrow]
    rfl
  | true =>
    simp only [upsertEngine, if_true] at hadd
    by_cases hschema : (adf_table_to_rows t).1.map normHeader =
        expected_headers.map normHeader
    · rw [if_neg (by simp [hschema])] at hadd
      cases hfind : (adf_table_to_rows t).2.find? (rowMatchesComp comp) with
      | some r => rw [hfind] at hadd; cases hadd
      | none =>
        rw [hfind] at hadd
        rw [UpsertOutcome.added.injEq] at hadd
        have hlen5 : (adf_table_to_rows t).1.length = 5 := by
          have := congrArg List.length hschema
          simpa using this
        rw [← hadd.2]
        intro row hrow
        rcases List.mem_append.mp hrow with hmem | hmem
        · rw [adf_table_to_rows_uniform t row hmem]
          exact hlen5
        · simp at hmem
          rw [hmem]
          rfl
    · rw [if_pos (by simpa using hschema)] at hadd
      cases hadd

/-- C10 (witness): an upsert into a document with no prior table yields a
single 5-cell row. -/
theorem c10_witness : ("0" :: ["svc-a", "dev", "", ""]).length = 5 :=
  c10_added_width tableBare "svc-a" "dev" "" "" false
    ["0", "svc-a", "dev", "", ""] [["0", "svc-a", "dev", "", ""]] (by decide)
    ["0", "svc-a", "dev", "", ""] (by decide)

end JiraRelScope
